import Mathlib

/-!
Verification of the session-context manager of the simple conversational
agent notebook (`01_Simple_Conversational_Agent.ipynb`).

The notebook's structural logic is:
  * a process-wide dictionary `store` mapping session ids to chat histories;
  * `get_chat_history(session_id)`: insert an empty history if the key is
    absent, then return the stored history;
  * a chat prompt template `[("system", "You are a helpful AI assistant."),
    MessagesPlaceholder("history"), ("human", "{input}")]`;
  * `chain_with_history = RunnableWithMessageHistory(chain, get_chat_history, ...)`,
    the per-turn orchestration.

We embed the dictionary as an association list (Python dicts preserve
insertion order and hold at most one value per key), messages as a role tag
plus content, and the template as a list of template items interpreted by a
formatting function.
-/

/-- Chat message roles: the template uses `system` and `human` (user) roles,
and the model replies are stored as AI (assistant) messages. -/
inductive Role where
  | system : Role
  | user : Role
  | assistant : Role
deriving DecidableEq, Repr

/-- A chat message: a role tag and text content (LangChain's
`SystemMessage` / `HumanMessage` / `AIMessage`, keeping only the fields the
notebook's logic touches). -/
structure Message where
  role : Role
  content : String
deriving DecidableEq, Repr

/-- `ChatMessageHistory`: an ordered, append-only list of messages. -/
abbrev ChatMessageHistory := List Message

/-- The process-wide `store` dictionary, `session_id -> ChatMessageHistory`,
as an insertion-ordered association list. -/
abbrev Store := List (String × ChatMessageHistory)

/-- Dictionary lookup: `store[session_id]` / `session_id in store`. -/
def lookupKey (store : Store) (k : String) : Option ChatMessageHistory :=
  match store with
  | [] => none
  | (k', h) :: rest => if k' = k then some h else lookupKey rest k

/-- `get_chat_history(session_id)` from the notebook:
`if session_id not in store: store[session_id] = ChatMessageHistory()`
then `return store[session_id]`.  Returns the (possibly extended) store
together with the history handed back to the caller. -/
def get_chat_history (store : Store) (session_id : String) :
    Store × ChatMessageHistory :=
  match lookupKey store session_id with
  | some h => (store, h)
  | none => (store ++ [(session_id, [])], [])

/-- A piece of a human message template: literal text or a `{variable}`
reference (f-string style). -/
inductive Chunk where
  | lit : String → Chunk
  | var : String → Chunk

/-- One entry of the chat prompt template: a literal system message, a
`MessagesPlaceholder`, or a human message template. -/
inductive PromptItem where
  | systemMsg : String → PromptItem
  | placeholder : String → PromptItem
  | human : List Chunk → PromptItem

/-- The notebook's prompt template:
`[("system", "You are a helpful AI assistant."), MessagesPlaceholder("history"), ("human", "{input}")]`. -/
def promptTemplate : List PromptItem :=
  [ PromptItem.systemMsg "You are a helpful AI assistant.",
    PromptItem.placeholder "history",
    PromptItem.human [Chunk.var "input"] ]

/-- Render the chunks of a human template, substituting the sole template
variable `input` with the user's input text. -/
def renderChunks (input : String) : List Chunk → String
  | [] => ""
  | Chunk.lit s :: rest => s ++ renderChunks input rest
  | Chunk.var _ :: rest => input ++ renderChunks input rest

/-- Interpret one template item against the `history` variable and the
`input` variable. -/
def formatItem (history : List Message) (input : String) :
    PromptItem → List Message
  | PromptItem.systemMsg c => [Message.mk Role.system c]
  | PromptItem.placeholder _ => history
  | PromptItem.human cs => [Message.mk Role.user (renderChunks input cs)]

/-- Formatting the notebook's `ChatPromptTemplate` with a history and a new
user input: concatenate the rendered items in template order. -/
def formatPrompt (history : List Message) (input : String) : List Message :=
  List.flatten (promptTemplate.map (formatItem history input))

/-- The fixed system instruction of the template. -/
def system_instruction : String := "You are a helpful AI assistant."

/-- The history a caller observes for key `k`: the stored messages, or the
empty sequence when the key has never been seen (a fresh session). -/
def historyOf (store : Store) (k : String) : ChatMessageHistory :=
  (lookupKey store k).getD []

/-- Replace the history stored under `k` (dictionary assignment
`store[k] = h`): overwrite the existing entry, or append a new one. -/
def setHistory (store : Store) (k : String) (h : ChatMessageHistory) : Store :=
  match store with
  | [] => [(k, h)]
  | (k', h') :: rest =>
      if k' = k then (k, h) :: rest else (k', h') :: setHistory rest k h

/-- Modelled from the spec: the Conversation Runner.  The notebook delegates
per-turn orchestration to LangChain's `RunnableWithMessageHistory`, whose
body is library code not part of this repository; the spec (section 4.4)
describes it as: fetch the history via `get_chat_history`, assemble the
prompt from the fixed instruction, the history snapshot and the user input,
invoke the Model Client on the assembled prompt, and on success append the
user message then the assistant reply to the session's history; on model
failure append nothing.  The Model Client is a function from the assembled
message sequence to `Option String` (`none` is invocation failure). -/
def handle_turn (model : List Message → Option String) (store : Store)
    (session_key user_input : String) : Store × Option String :=
  match model (formatPrompt (get_chat_history store session_key).2 user_input) with
  | none => ((get_chat_history store session_key).1, none)
  | some reply =>
      (setHistory (get_chat_history store session_key).1 session_key
        ((get_chat_history store session_key).2 ++
          [Message.mk Role.user user_input,
           Message.mk Role.assistant reply]),
       some reply)

/-- Run a sequence of turns on one session key, threading the store. -/
def runTurns (model : List Message → Option String) (store : Store)
    (k : String) : List String → Store
  | [] => store
  | i :: rest => runTurns model (handle_turn model store k i).1 k rest

/-- The (user, assistant) message pairs produced by a sequence of turns on
one session key, in call order; `none` when any turn's model call fails. -/
def runPairs (model : List Message → Option String) (store : Store)
    (k : String) : List String → Option (List Message)
  | [] => some []
  | i :: rest =>
      match handle_turn model store k i with
      | (s', some r) =>
          (runPairs model s' k rest).map
            (fun ps => Message.mk Role.user i :: Message.mk Role.assistant r :: ps)
      | (_, none) => none

/-! ### Basic store lemmas -/

theorem lookupKey_append_right (s : Store) (k : String) (h : ChatMessageHistory)
    (hnone : lookupKey s k = none) : lookupKey (s ++ [(k, h)]) k = some h := by
  induction s with
  | nil => simp [lookupKey]
  | cons p rest ih =>
    obtain ⟨k', h'⟩ := p
    by_cases hk : k' = k
    · simp [lookupKey, hk] at hnone
    · simp only [List.cons_append, lookupKey, if_neg hk] at hnone ⊢
      exact ih hnone

theorem lookupKey_append_ne (s : Store) (k k' : String) (h : ChatMessageHistory)
    (hne : k' ≠ k) : lookupKey (s ++ [(k, h)]) k' = lookupKey s k' := by
  induction s with
  | nil => simp [lookupKey, Ne.symm hne]
  | cons p rest ih =>
    obtain ⟨k2, h2⟩ := p
    by_cases hk : k2 = k'
    · simp [lookupKey, hk]
    · simp only [List.cons_append, lookupKey, if_neg hk]
      exact ih

theorem lookupKey_setHistory_self (s : Store) (k : String)
    (h : ChatMessageHistory) : lookupKey (setHistory s k h) k = some h := by
  induction s with
  | nil => simp [setHistory, lookupKey]
  | cons p rest ih =>
    obtain ⟨k', h'⟩ := p
    by_cases hk : k' = k
    · simp [setHistory, hk, lookupKey]
    · simp [setHistory, hk, lookupKey, ih]

theorem lookupKey_setHistory_ne (s : Store) (k k' : String)
    (h : ChatMessageHistory) (hne : k ≠ k') :
    lookupKey (setHistory s k h) k' = lookupKey s k' := by
  induction s with
  | nil => simp [setHistory, lookupKey, hne]
  | cons p rest ih =>
    obtain ⟨k2, h2⟩ := p
    by_cases hk : k2 = k
    · subst hk
      simp [setHistory, lookupKey, hne]
    · simp [setHistory, hk, lookupKey, ih]

theorem get_chat_history_snd (s : Store) (k : String) :
    (get_chat_history s k).2 = historyOf s k := by
  cases hl : lookupKey s k <;> simp [get_chat_history, historyOf, hl]

theorem historyOf_get_chat_history (s : Store) (k k' : String) :
    historyOf (get_chat_history s k).1 k' = historyOf s k' := by
  cases hl : lookupKey s k with
  | some h => simp [get_chat_history, hl]
  | none =>
    by_cases hk : k' = k
    · subst hk
      simp [get_chat_history, hl, historyOf, lookupKey_append_right s k' [] hl]
    · simp [get_chat_history, hl, historyOf, lookupKey_append_ne s k k' [] hk]

theorem lookupKey_get_chat_history_self (s : Store) (k : String) :
    lookupKey (get_chat_history s k).1 k = some (get_chat_history s k).2 := by
  cases hl : lookupKey s k with
  | some h => simp [get_chat_history, hl]
  | none => simp [get_chat_history, hl, lookupKey_append_right s k [] hl]

/-! ### Runner lemmas -/

theorem handle_turn_some_eq (model : List Message → Option String) (s : Store)
    (k i r : String) (hm : model (formatPrompt (historyOf s k) i) = some r) :
    handle_turn model s k i =
      (setHistory (get_chat_history s k).1 k
        (historyOf s k ++
          [Message.mk Role.user i, Message.mk Role.assistant r]),
       some r) := by
  unfold handle_turn
  rw [get_chat_history_snd, hm]

theorem handle_turn_none_eq (model : List Message → Option String) (s : Store)
    (k i : String) (hm : model (formatPrompt (historyOf s k) i) = none) :
    handle_turn model s k i = ((get_chat_history s k).1, none) := by
  unfold handle_turn
  rw [get_chat_history_snd, hm]

theorem historyOf_handle_turn_some (model : List Message → Option String)
    (s : Store) (k i r : String)
    (hm : model (formatPrompt (historyOf s k) i) = some r) :
    historyOf (handle_turn model s k i).1 k =
      historyOf s k ++ [Message.mk Role.user i, Message.mk Role.assistant r] := by
  rw [handle_turn_some_eq model s k i r hm]
  simp [historyOf, lookupKey_setHistory_self]

theorem historyOf_handle_turn_ne (model : List Message → Option String)
    (s : Store) (k k' i : String) (hne : k ≠ k') :
    historyOf (handle_turn model s k i).1 k' = historyOf s k' := by
  cases hm : model (formatPrompt (historyOf s k) i) with
  | none =>
    rw [handle_turn_none_eq model s k i hm]
    exact historyOf_get_chat_history s k k'
  | some r =>
    rw [handle_turn_some_eq model s k i r hm]
    simp only [historyOf, lookupKey_setHistory_ne _ _ _ _ hne]
    exact historyOf_get_chat_history s k k'

theorem handle_turn_some_inv (model : List Message → Option String) (s : Store)
    (k i : String) (s' : Store) (r : String)
    (hh : handle_turn model s k i = (s', some r)) :
    model (formatPrompt (historyOf s k) i) = some r ∧
    historyOf s' k =
      historyOf s k ++ [Message.mk Role.user i, Message.mk Role.assistant r] := by
  cases hm : model (formatPrompt (historyOf s k) i) with
  | none =>
    rw [handle_turn_none_eq model s k i hm] at hh
    simp at hh
  | some r2 =>
    rw [handle_turn_some_eq model s k i r2 hm] at hh
    injection hh with hA hB
    injection hB with hr
    subst hr
    subst hA
    refine ⟨rfl, ?_⟩
    simp [historyOf, lookupKey_setHistory_self]

theorem runTurns_historyOf (model : List Message → Option String) (k : String) :
    ∀ (inputs : List String) (s : Store) (ps : List Message),
      runPairs model s k inputs = some ps →
      historyOf (runTurns model s k inputs) k = historyOf s k ++ ps := by
  intro inputs
  induction inputs with
  | nil =>
    intro s ps hp
    simp [runPairs] at hp
    simp [runTurns, ← hp]
  | cons i rest ih =>
    intro s ps hp
    simp only [runPairs] at hp
    simp only [runTurns]
    rcases hh : handle_turn model s k i with ⟨s', or⟩
    rw [hh] at hp
    cases or with
    | none => simp at hp
    | some r =>
      simp only [Option.map_eq_some'] at hp
      obtain ⟨ps', hps', hpe⟩ := hp
      subst hpe
      have hinv := handle_turn_some_inv model s k i s' r hh
      have hrec := ih s' ps' hps'
      show historyOf (runTurns model s' k rest) k = _
      rw [hrec, hinv.2]
      simp

/-! ### Claim theorems -/

/-- C1: if the Model Client invocation fails during `handle_turn`, the
observable history of every session key — in particular the turn's own —
is unchanged: contents (hence length) after the failed call equal those
before, for every session key and every prior store. -/
theorem handle_turn_failure_nonmutation (model : List Message → Option String)
    (s : Store) (k i : String)
    (hm : model (formatPrompt (historyOf s k) i) = none) :
    (handle_turn model s k i).2 = none ∧
    ∀ k' : String, historyOf (handle_turn model s k i).1 k' = historyOf s k' := by
  rw [handle_turn_none_eq model s k i hm]
  exact ⟨rfl, fun k' => historyOf_get_chat_history s k k'⟩

/-- Witness for C1: a failing model on a fresh store mutates no history. -/
theorem handle_turn_failure_nonmutation_witness :
    (handle_turn (fun _ => none) [] "s1" "hi").2 = none ∧
    ∀ k' : String,
      historyOf (handle_turn (fun _ => none) [] "s1" "hi").1 k' =
        historyOf ([] : Store) k' :=
  handle_turn_failure_nonmutation (fun _ => none) [] "s1" "hi" rfl

/-- C2: the prompt assembler is a pure function of its arguments, and for
every history and every input its output is exactly
`[Message system system_instruction] ++ history ++ [Message user input]`:
instruction first, history unfiltered and in order, new user message last.
Determinism is immediate because `formatPrompt` is a function of exactly
these two arguments and no other state. -/
theorem formatPrompt_eq (h : List Message) (i : String) :
    formatPrompt h i =
      [Message.mk Role.system system_instruction] ++ h ++
        [Message.mk Role.user i] := by
  simp [formatPrompt, promptTemplate, formatItem, renderChunks,
    system_instruction]

/-- C3: starting from a fresh (empty) session history, after any sequence
of successfully completed turns on one key the history is exactly the
concatenation of the turns' (user, assistant) message pairs in call
order — each completed turn contributes its user message then its
assistant message, and nothing else. -/
theorem runTurns_fresh_history (model : List Message → Option String)
    (s : Store) (k : String) (inputs : List String) (ps : List Message)
    (h0 : historyOf s k = []) (hok : runPairs model s k inputs = some ps) :
    historyOf (runTurns model s k inputs) k = ps := by
  rw [runTurns_historyOf model k inputs s ps hok, h0]
  rfl

/-- Witness for C3: two successful turns on a fresh store record exactly
the two (user, assistant) pairs in order. -/
theorem runTurns_fresh_history_witness :
    historyOf (runTurns (fun _ => some "ok") [] "s1" ["a", "b"]) "s1" =
      [Message.mk Role.user "a", Message.mk Role.assistant "ok",
       Message.mk Role.user "b", Message.mk Role.assistant "ok"] :=
  runTurns_fresh_history (fun _ => some "ok") [] "s1" ["a", "b"] _ rfl rfl

/-- C4: `get_chat_history` is idempotent: a second call with the same key
and no intervening append returns the identical store and history; a
present key returns the stored history with the store untouched; a lookup
miss creates an empty history, inserts it under the key, and returns it —
never an error. -/
theorem get_chat_history_idempotent (s : Store) (k : String) :
    get_chat_history (get_chat_history s k).1 k = get_chat_history s k ∧
    (∀ h, lookupKey s k = some h → get_chat_history s k = (s, h)) ∧
    (lookupKey s k = none →
      (get_chat_history s k).2 = [] ∧
      lookupKey (get_chat_history s k).1 k = some []) := by
  refine ⟨?_, ?_, ?_⟩
  · cases hl : lookupKey s k with
    | some h => simp [get_chat_history, hl]
    | none => simp [get_chat_history, hl, lookupKey_append_right s k [] hl]
  · intro h hl
    simp [get_chat_history, hl]
  · intro hl
    simp [get_chat_history, hl, lookupKey_append_right s k [] hl]

/-- Witness for C4: a present key returns the stored history unchanged. -/
theorem get_chat_history_idempotent_witness :
    get_chat_history [("s1", [Message.mk Role.user "x"])] "s1" =
      ([("s1", [Message.mk Role.user "x"])], [Message.mk Role.user "x"]) :=
  (get_chat_history_idempotent [("s1", [Message.mk Role.user "x"])] "s1").2.1
    [Message.mk Role.user "x"] rfl

/-- C5: sessions are isolated: a turn handled under key `a` never changes
the observable history of any distinct key `b`. -/
theorem handle_turn_isolation (model : List Message → Option String)
    (s : Store) (a b i : String) (hne : a ≠ b) :
    historyOf (handle_turn model s a i).1 b = historyOf s b :=
  historyOf_handle_turn_ne model s a b i hne

/-- Witness for C5: a turn on key A leaves key B's history empty. -/
theorem handle_turn_isolation_witness :
    historyOf (handle_turn (fun _ => some "ok") [] "A" "hi").1 "B" =
      historyOf ([] : Store) "B" :=
  handle_turn_isolation (fun _ => some "ok") [] "A" "B" "hi" (by decide)

/-- C6: on a successful turn `handle_turn` returns exactly the Model
Client's reply for the assembled prompt, and that reply is the content of
the assistant message appended after the user's message; the input is
universally quantified, so the empty input is accepted and recorded
verbatim. -/
theorem handle_turn_success_reply (model : List Message → Option String)
    (s : Store) (k i r : String)
    (hm : model (formatPrompt (historyOf s k) i) = some r) :
    (handle_turn model s k i).2 = some r ∧
    historyOf (handle_turn model s k i).1 k =
      historyOf s k ++ [Message.mk Role.user i, Message.mk Role.assistant r] := by
  rw [handle_turn_some_eq model s k i r hm]
  refine ⟨rfl, ?_⟩
  simp [historyOf, lookupKey_setHistory_self]

/-- Witness for C6: a successful turn with the empty user input records it
verbatim and returns the model's reply. -/
theorem handle_turn_success_reply_witness :
    (handle_turn (fun _ => some "re") [] "s1" "").2 = some "re" ∧
    historyOf (handle_turn (fun _ => some "re") [] "s1" "").1 "s1" =
      historyOf ([] : Store) "s1" ++
        [Message.mk Role.user "", Message.mk Role.assistant "re"] :=
  handle_turn_success_reply (fun _ => some "re") [] "s1" "" "re" rfl

/-- C8: calling `get_chat_history` on a key already present in the store is
a pure read: the store is returned unchanged (so every session's messages,
including the looked-up one's, are unchanged) together with the stored
history. -/
theorem get_chat_history_pure_read (s : Store) (k : String)
    (h : ChatMessageHistory) (hk : lookupKey s k = some h) :
    get_chat_history s k = (s, h) := by
  simp [get_chat_history, hk]

/-- Witness for C8: looking up a present key changes nothing. -/
theorem get_chat_history_pure_read_witness :
    get_chat_history [("a", []), ("b", [Message.mk Role.user "m"])] "b" =
      ([("a", []), ("b", [Message.mk Role.user "m"])],
       [Message.mk Role.user "m"]) :=
  get_chat_history_pure_read [("a", []), ("b", [Message.mk Role.user "m"])]
    "b" [Message.mk Role.user "m"] rfl

/-- C9: `get_chat_history` is total over all string session keys: for every
store and every key (the empty string included) it returns a history that
is registered in the resulting store under that key — there is no failing
path in the function. -/
theorem get_chat_history_total (s : Store) (k : String) :
    lookupKey (get_chat_history s k).1 k = some (get_chat_history s k).2 :=
  lookupKey_get_chat_history_self s k

/-- C10: every assembled prompt begins with a system message whose content
is exactly the constant string "You are a helpful AI assistant.", for every
history and every input — the instruction does not depend on the session
or the turn. -/
theorem formatPrompt_head (h : List Message) (i : String) :
    (formatPrompt h i).head? =
      some (Message.mk Role.system "You are a helpful AI assistant.") := by
  simp [formatPrompt, promptTemplate, formatItem]
